import Mathlib

/-!
# Verification of the Turing-Machine-based Text Editor engine

A shallow embedding of `src/hi.py` (class `TuringEditor`) and proofs about
its undo/redo history, tape invariants and error behaviour.

Modelling conventions:
* Python strings become `List Char`; the tape is a `List Char`.
* `self.undo_stack` / `self.redo_stack` are `List Snapshot` in Python list
  order: index 0 is the oldest entry, `append` adds at the end, `pop()`
  removes the last element, `pop(0)` removes the first.
* Operations that can only print an error message and return, and
  operations that can raise `IndexError`, both return
  `TuringEditor × Option EdErr`: the first component is the editor state
  when the operation returns or when the exception propagates (Python
  leaves the partially mutated object in place), the second reports the
  error, `none` on normal completion.
* `deepcopy` is the identity on immutable Lean values.
-/

/-- Errors the editor can signal: the three printed messages
(`Nothing to delete.` / `Nothing to undo.` / `Nothing to redo.`) and a
raised Python `IndexError`. -/
inductive EdErr where
  | nothingToDelete
  | nothingToUndo
  | nothingToRedo
  | indexError
deriving DecidableEq, Repr

/-- A history snapshot: `(deepcopy(self.tape), self.head, self.mode)`. -/
abbrev Snapshot := List Char × Nat × String

/-- The state of `TuringEditor` (`src/hi.py`, `__init__`). -/
structure TuringEditor where
  tape : List Char
  head : Nat
  state : String
  mode : String
  undo_stack : List Snapshot
  redo_stack : List Snapshot
deriving DecidableEq, Repr

namespace TuringEditor

/-- `TuringEditor(tape_size)`: blank tape, head 0, state `q0`, insert mode,
empty history stacks. -/
def init (tape_size : Nat) : TuringEditor :=
  { tape := List.replicate tape_size '_'
    head := 0
    state := "q0"
    mode := "insert"
    undo_stack := []
    redo_stack := [] }

/-- Index of the last non-blank tape cell (`none` when the tape is all
blank), as computed by the generator-`max` in `_visible_length`. -/
def last_nonblank : List Char → Nat → Option Nat
  | [], _ => none
  | c :: rest, i =>
    match last_nonblank rest (i + 1) with
    | some j => some j
    | none => if c ≠ '_' then some i else none

/-- `_visible_length`: `max(last_nonblank + 1, head + 1)` with
`last_nonblank = -1` when every cell is blank. -/
def _visible_length (e : TuringEditor) : Nat :=
  let lnb1 : Nat :=
    match last_nonblank e.tape 0 with
    | some j => j + 1
    | none => 0
  max lnb1 (e.head + 1)

/-- Python `s.rstrip("_")`: drop trailing underscores. -/
def rstrip_blank (s : List Char) : List Char :=
  (s.reverse.dropWhile (fun c => c = '_')).reverse

/-- `get_text`: the first `_visible_length` cells with trailing blanks
stripped. -/
def get_text (e : TuringEditor) : List Char :=
  rstrip_blank (e.tape.take (_visible_length e))

/-- `save_state`: append a snapshot to the undo stack and `pop(0)` the
oldest entry if the depth exceeds 300. -/
def save_state (e : TuringEditor) : TuringEditor :=
  let stack := e.undo_stack ++ [(e.tape, e.head, e.mode)]
  { e with undo_stack := if stack.length > 300 then stack.tail else stack }

/-- `clear_redo`: empty the redo stack. -/
def clear_redo (e : TuringEditor) : TuringEditor :=
  { e with redo_stack := [] }

/-- Python `list.insert(i, x)` for `i ≥ 0`: insert before position `i`,
appending when `i ≥ len`. -/
def pyInsert (l : List Char) (i : Nat) (x : Char) : List Char :=
  l.take i ++ x :: l.drop i

/-- The per-character loop body of `type_text` iterated over the text:
insert mode does `tape.insert(head, ch); tape.pop()`, overwrite mode does
`tape[head] = ch` (raising `IndexError` when `head` is out of range);
either way `head += 1`. -/
def type_loop (mode : String) : List Char → List Char → Nat →
    List Char × Nat × Option EdErr
  | [], tape, head => (tape, head, none)
  | ch :: rest, tape, head =>
    if mode = "insert" then
      type_loop mode rest ((pyInsert tape head ch).dropLast) (head + 1)
    else
      if head < tape.length then
        type_loop mode rest (tape.set head ch) (head + 1)
      else
        (tape, head, some .indexError)

/-- `type_text(text)`: no-op on empty text; otherwise checkpoint, set state
`Typing`, run the character loop, and clear the redo stack (the clearing is
skipped when the loop raises). -/
def type_text (text : List Char) (e : TuringEditor) :
    TuringEditor × Option EdErr :=
  if text = [] then (e, none)
  else
    let e1 := { save_state e with state := "Typing" }
    match type_loop e1.mode text e1.tape e1.head with
    | (tape, head, none) =>
      ({ e1 with tape := tape, head := head, redo_stack := [] }, none)
    | (tape, head, some er) =>
      ({ e1 with tape := tape, head := head }, some er)

/-- `backspace`: report `Nothing to delete.` when `head == 0`; otherwise
checkpoint, set state `Delete`, decrement the head, blank the cell there
(reading `tape[head]` raises `IndexError` when the head is past the tape)
and clear the redo stack. -/
def backspace (e : TuringEditor) : TuringEditor × Option EdErr :=
  if e.head = 0 then (e, some .nothingToDelete)
  else
    let e1 := { save_state e with state := "Delete" }
    let h := e1.head - 1
    if h < e1.tape.length then
      ({ e1 with head := h, tape := e1.tape.set h '_', redo_stack := [] },
        none)
    else
      ({ e1 with head := h }, some .indexError)

/-- `undo`: report `Nothing to undo.` on an empty undo stack; otherwise
push the live `(tape, head, mode)` onto the redo stack and pop the last
undo entry into the live state. -/
def undo (e : TuringEditor) : TuringEditor × Option EdErr :=
  match e.undo_stack.getLast? with
  | none => (e, some .nothingToUndo)
  | some snap =>
    ({ e with state := "Undo"
              redo_stack := e.redo_stack ++ [(e.tape, e.head, e.mode)]
              undo_stack := e.undo_stack.dropLast
              tape := snap.1
              head := snap.2.1
              mode := snap.2.2 }, none)

/-- `redo`: report `Nothing to redo.` on an empty redo stack; otherwise
push the live `(tape, head, mode)` onto the undo stack (with no depth cap)
and pop the last redo entry into the live state. -/
def redo (e : TuringEditor) : TuringEditor × Option EdErr :=
  match e.redo_stack.getLast? with
  | none => (e, some .nothingToRedo)
  | some snap =>
    ({ e with state := "Redo"
              undo_stack := e.undo_stack ++ [(e.tape, e.head, e.mode)]
              redo_stack := e.redo_stack.dropLast
              tape := snap.1
              head := snap.2.1
              mode := snap.2.2 }, none)

/-- `toggle_mode`: flip between insert and overwrite. -/
def toggle_mode (e : TuringEditor) : TuringEditor :=
  { e with mode := if e.mode = "insert" then "overwrite" else "insert" }

/-- `move_left`: decrement the head when it is positive. -/
def move_left (e : TuringEditor) : TuringEditor :=
  { e with state := "Move_Left"
           head := if e.head > 0 then e.head - 1 else e.head }

/-- `move_right`: increment the head when `head < len(tape) - 1`. -/
def move_right (e : TuringEditor) : TuringEditor :=
  { e with state := "Move_Right"
           head := if e.head < e.tape.length - 1 then e.head + 1 else e.head }

/-- `move_start`: head to 0. -/
def move_start (e : TuringEditor) : TuringEditor :=
  { e with state := "Move_Start", head := 0 }

/-- `move_end`: head to `_visible_length() - 1`. -/
def move_end (e : TuringEditor) : TuringEditor :=
  { e with state := "Move_End", head := _visible_length e - 1 }

/-- `clear_all`: checkpoint, blank the whole tape (same length), head 0,
state `Clear`. -/
def clear_all (e : TuringEditor) : TuringEditor :=
  let e1 := save_state e
  { e1 with tape := List.replicate e1.tape.length '_'
            head := 0
            state := "Clear" }

/-- Python `str.replace(old, new)` for an empty `old`: `new` is inserted
before every character and at the end. -/
def replace_empty (new : List Char) : List Char → List Char
  | [] => new
  | c :: rest => new ++ c :: replace_empty new rest

/-- Python `str.replace(old, new)` for non-empty `old = o :: os`:
leftmost-first non-overlapping substitution. The fuel argument only makes
the recursion structural; each step consumes at least one character of the
string, so fuel initialised to the string's length is never exhausted. -/
def replace_go (o : Char) (os new : List Char) : Nat → List Char → List Char
  | _, [] => []
  | 0, s => s
  | fuel + 1, c :: rest =>
    if (c :: rest).take (os.length + 1) = o :: os then
      new ++ replace_go o os new fuel (rest.drop os.length)
    else
      c :: replace_go o os new fuel rest

/-- Python `str.replace(old, new)`. -/
def py_replace (s old new : List Char) : List Char :=
  match old with
  | [] => replace_empty new s
  | o :: os => replace_go o os new s.length s

/-- The first loop of `replace_text`: `for i, ch in enumerate(text):
tape[i] = ch`, raising `IndexError` at the first index past the tape. -/
def write_at : List Char → Nat → List Char → List Char × Option EdErr
  | tape, _, [] => (tape, none)
  | tape, i, ch :: rest =>
    if i < tape.length then write_at (tape.set i ch) (i + 1) rest
    else (tape, some .indexError)

/-- The second loop of `replace_text`: `for j in range(start, len(tape)):
tape[j] = "_"` — every slot from `start` on becomes blank, the slots before
`start` are untouched, the length is unchanged. -/
def blank_from (tape : List Char) (start : Nat) : List Char :=
  tape.take start ++ List.replicate (tape.length - start) '_'

/-- `replace_text(old, new)`: checkpoint, compute
`get_text().replace(old, new)`, write it into the tape from slot 0
(raising `IndexError` when it is longer than the tape) and blank the
remaining slots. The redo stack is not touched and the head is not
repositioned. -/
def replace_text (old new : List Char) (e : TuringEditor) :
    TuringEditor × Option EdErr :=
  let e1 := save_state e
  let text := py_replace (get_text e1) old new
  match write_at e1.tape 0 text with
  | (tape, none) => ({ e1 with tape := blank_from tape text.length }, none)
  | (tape, some er) => ({ e1 with tape := tape }, some er)

/-- The engine part of `load_from_file` once the file's content has been
read: checkpoint, tape becomes the content followed by blank padding
(`["_"] * (len(tape) - len(content))`, empty when the content is longer
than the tape, so the tape then grows), head set to the content length. -/
def load_content (content : List Char) (e : TuringEditor) : TuringEditor :=
  let e1 := save_state e
  { e1 with
      tape := content ++ List.replicate (e1.tape.length - content.length) '_'
      head := content.length }

/-- The live `(tape, head, mode)` triple of an editor. -/
def triple (e : TuringEditor) : Snapshot := (e.tape, e.head, e.mode)

/-- Apply `clear_all` `n` times. -/
def clears : Nat → TuringEditor → TuringEditor
  | 0, e => e
  | n + 1, e => clears n (clear_all e)

/-- A small concrete editor state used as a witness input: tape "ab",
head 1, insert mode, empty history. -/
def ed0 : TuringEditor :=
  { tape := ['a', 'b']
    head := 1
    state := "q0"
    mode := "insert"
    undo_stack := []
    redo_stack := [] }

end TuringEditor

namespace TuringEditor



theorem save_state_undo_getLast (e : TuringEditor) :
    (save_state e).undo_stack.getLast? = some (triple e) := by
  unfold save_state triple
  simp only
  split
  · rename_i hlen
    cases hu : e.undo_stack with
    | nil => rw [hu] at hlen; simp at hlen
    | cons a u' => simp [List.cons_append, List.getLast?_concat]
  · exact List.getLast?_concat _

theorem undo_of_pushed (e' e : TuringEditor)
    (h : e'.undo_stack = (save_state e).undo_stack) :
    (undo e').2 = none ∧ triple (undo e').1 = triple e := by
  unfold undo
  rw [h, save_state_undo_getLast]
  exact ⟨rfl, rfl⟩

theorem type_text_undo_stack (e : TuringEditor) (text : List Char)
    (h : text ≠ []) :
    ((type_text text e).1).undo_stack = (save_state e).undo_stack := by
  unfold type_text
  rw [if_neg h]
  simp only
  rcases htl : type_loop (save_state e).mode text (save_state e).tape
      (save_state e).head with ⟨tape, head, err⟩
  cases err <;> simp [htl]



theorem backspace_undo_stack (e : TuringEditor) (h : e.head ≠ 0) :
    ((backspace e).1).undo_stack = (save_state e).undo_stack := by
  unfold backspace
  rw [if_neg h]
  simp only
  split <;> simp

theorem clear_all_undo_stack (e : TuringEditor) :
    (clear_all e).undo_stack = (save_state e).undo_stack := rfl

theorem replace_text_undo_stack (e : TuringEditor) (old new : List Char) :
    ((replace_text old new e).1).undo_stack = (save_state e).undo_stack := by
  unfold replace_text
  simp only
  rcases hw : write_at (save_state e).tape 0
      (py_replace (get_text (save_state e)) old new) with ⟨tape, err⟩
  cases err <;> simp [hw]

/-- C1: for every engine state, calling `undo` immediately after a single
mutating edit — `type_text` with non-empty input, `backspace` with a
non-zero head, `clear_all`, or `replace_text` — succeeds and restores the
exact `(tape, head, mode)` triple that held before the edit, at any
undo-stack depth (the depth cap evicts from the front, never the just
pushed snapshot). -/
theorem c1_undo_restores_prior_state (e : TuringEditor) (text old new : List Char)
    (htext : text ≠ []) (hhead : e.head ≠ 0) :
    ((undo (type_text text e).1).2 = none ∧
      triple (undo (type_text text e).1).1 = triple e) ∧
    ((undo (backspace e).1).2 = none ∧
      triple (undo (backspace e).1).1 = triple e) ∧
    ((undo (clear_all e)).2 = none ∧
      triple (undo (clear_all e)).1 = triple e) ∧
    ((undo (replace_text old new e).1).2 = none ∧
      triple (undo (replace_text old new e).1).1 = triple e) :=
  ⟨undo_of_pushed _ e (type_text_undo_stack e text htext),
   undo_of_pushed _ e (backspace_undo_stack e hhead),
   undo_of_pushed _ e (clear_all_undo_stack e),
   undo_of_pushed _ e (replace_text_undo_stack e old new)⟩

/-- C2: for every engine state with a non-empty undo stack, `undo`
followed immediately by `redo` succeeds on both steps and is the identity
on the `(tape, head, mode)` triple. -/
theorem c2_undo_redo_identity (e : TuringEditor) (h : e.undo_stack ≠ []) :
    (undo e).2 = none ∧ (redo (undo e).1).2 = none ∧
    triple (redo (undo e).1).1 = triple e := by
  unfold undo
  rcases hg : e.undo_stack.getLast? with _ | snap
  · exact absurd (List.getLast?_eq_none_iff.mp hg) h
  · refine ⟨rfl, ?_⟩
    unfold redo
    simp only [List.getLast?_concat]
    exact ⟨trivial, rfl⟩



theorem save_state_undo_length (e : TuringEditor) :
    (save_state e).undo_stack.length =
      if e.undo_stack.length + 1 > 300 then e.undo_stack.length
      else e.undo_stack.length + 1 := by
  unfold save_state
  simp only
  split <;> rename_i hcond
  · rw [if_pos (by simpa using hcond)]
    simp
  · rw [if_neg (by simpa using hcond)]
    simp

theorem clear_all_redo_stack (e : TuringEditor) :
    (clear_all e).redo_stack = e.redo_stack := rfl

theorem clear_all_undo_length (e : TuringEditor) :
    (clear_all e).undo_stack.length =
      if e.undo_stack.length + 1 > 300 then e.undo_stack.length
      else e.undo_stack.length + 1 :=
  save_state_undo_length e


theorem clears_invariant (n : Nat) : ∀ e : TuringEditor,
    e.undo_stack.length ≤ 300 →
    (clears n e).undo_stack.length = min (e.undo_stack.length + n) 300 ∧
    (clears n e).redo_stack = e.redo_stack := by
  induction n with
  | zero =>
    intro e h
    refine ⟨?_, rfl⟩
    show e.undo_stack.length = min (e.undo_stack.length + 0) 300
    omega
  | succ n ih =>
    intro e h
    have h1 := clear_all_undo_length e
    have h2 : (clear_all e).undo_stack.length ≤ 300 := by
      rw [h1]; split <;> omega
    obtain ⟨ha, hb⟩ := ih (clear_all e) h2
    have hstep : clears (n + 1) e = clears n (clear_all e) := rfl
    constructor
    · rw [hstep, ha, h1]; split <;> rename_i hc <;> omega
    · rw [hstep, hb, clear_all_redo_stack]

theorem undo_stacks (e : TuringEditor) (h : e.undo_stack ≠ []) :
    (undo e).1.undo_stack = e.undo_stack.dropLast ∧
    (undo e).1.redo_stack = e.redo_stack ++ [triple e] := by
  unfold undo
  rcases hg : e.undo_stack.getLast? with _ | snap
  · exact absurd (List.getLast?_eq_none_iff.mp hg) h
  · exact ⟨rfl, rfl⟩

theorem redo_undo_stack (e : TuringEditor) (h : e.redo_stack ≠ []) :
    (redo e).1.undo_stack = e.undo_stack ++ [triple e] := by
  unfold redo
  rcases hg : e.redo_stack.getLast? with _ | snap
  · exact absurd (List.getLast?_eq_none_iff.mp hg) h
  · rfl

/-- C6 (amended): pushes that go through `save_state` — the checkpoint
used by `type_text`, `backspace`, `clear_all`, `replace_text` and loading —
keep the undo-stack depth at most 300 and evict the oldest entry (drop
from the front) when a push would exceed the bound; but the push performed
by `redo` is uncapped: it always grows the undo stack by one, so the bound
can be exceeded through `redo` (see the counterexample). -/
theorem c6_undo_bound (e : TuringEditor) (h : e.undo_stack.length ≤ 300) :
    (save_state e).undo_stack.length ≤ 300 ∧
    (e.undo_stack.length = 300 →
      (save_state e).undo_stack =
        (e.undo_stack ++ [(e.tape, e.head, e.mode)]).tail) ∧
    (e.redo_stack ≠ [] →
      (redo e).1.undo_stack.length = e.undo_stack.length + 1) := by
  refine ⟨?_, ?_, ?_⟩
  · rw [save_state_undo_length]; split <;> omega
  · intro h300
    unfold save_state
    simp only
    rw [if_pos (by simp [List.length_append, h300])]
  · intro hr
    rw [redo_undo_stack e hr]
    simp

/-- C6 counterexample: after 301 `clear_all` calls on a fresh editor the
undo stack holds 300 snapshots; one `undo` (redo stack now non-empty), one
more `clear_all` (back to 300, redo stack untouched) and one `redo` push
the undo stack to depth 301, exceeding the claimed bound of 300. -/
theorem c6_counterexample :
    300 < (redo (clear_all (undo (clears 301 (init 1))).1)).1.undo_stack.length := by
  have h0 : (init 1).undo_stack.length = 0 := rfl
  obtain ⟨h1, h2⟩ := clears_invariant 301 (init 1) (by rw [h0]; omega)
  have h1a : (clears 301 (init 1)).undo_stack.length = 300 := by
    rw [h1, h0]; omega
  have h2a : (clears 301 (init 1)).redo_stack = [] := by
    rw [h2]; rfl
  have hne : (clears 301 (init 1)).undo_stack ≠ [] := by
    intro hnil; rw [hnil] at h1a; simp at h1a
  obtain ⟨hu, hr⟩ := undo_stacks _ hne
  have hs1u : (undo (clears 301 (init 1))).1.undo_stack.length = 299 := by
    rw [hu, List.length_dropLast, h1a]
  have hs1r : (undo (clears 301 (init 1))).1.redo_stack.length = 1 := by
    rw [hr, h2a]; rfl
  have hc : (clear_all (undo (clears 301 (init 1))).1).undo_stack.length = 300 := by
    rw [clear_all_undo_length, hs1u]; decide
  have hcr : (clear_all (undo (clears 301 (init 1))).1).redo_stack.length = 1 := by
    rw [clear_all_redo_stack, hs1r]
  have hrne : (clear_all (undo (clears 301 (init 1))).1).redo_stack ≠ [] := by
    intro hnil; rw [hnil] at hcr; simp at hcr
  rw [redo_undo_stack _ hrne]
  simp [hc]



theorem type_loop_head (mode : String) :
    ∀ (text tape : List Char) (head : Nat),
      (type_loop mode text tape head).2.2 = none →
      (type_loop mode text tape head).2.1 = head + text.length := by
  intro text
  induction text with
  | nil => intro tape head _; rfl
  | cons ch rest ih =>
    intro tape head hnone
    by_cases hm : mode = "insert"
    · have hstep : type_loop mode (ch :: rest) tape head
          = type_loop mode rest ((pyInsert tape head ch).dropLast) (head + 1) := by
        simp only [type_loop]; rw [if_pos hm]
      rw [hstep] at hnone ⊢
      rw [ih _ _ hnone]
      simp [List.length_cons]; omega
    · by_cases hl : head < tape.length
      · have hstep : type_loop mode (ch :: rest) tape head
            = type_loop mode rest (tape.set head ch) (head + 1) := by
          simp only [type_loop]; rw [if_neg hm, if_pos hl]
        rw [hstep] at hnone ⊢
        rw [ih _ _ hnone]
        simp [List.length_cons]; omega
      · have hstep : type_loop mode (ch :: rest) tape head
            = (tape, head, some EdErr.indexError) := by
          simp only [type_loop]; rw [if_neg hm, if_neg hl]
        rw [hstep] at hnone
        simp at hnone

theorem type_text_head (e : TuringEditor) (text : List Char)
    (h : (type_text text e).2 = none) :
    (type_text text e).1.head = e.head + text.length := by
  by_cases ht : text = []
  · subst ht; simp [type_text]
  · unfold type_text at h ⊢
    rw [if_neg ht] at h ⊢
    simp only at h ⊢
    rcases htl : type_loop (save_state e).mode text (save_state e).tape
        (save_state e).head with ⟨tape, head, err⟩
    cases err
    · simp only [htl]
      have hh := type_loop_head (save_state e).mode text (save_state e).tape
          (save_state e).head (by rw [htl])
      rw [htl] at hh
      simpa using hh
    · rw [htl] at h; simp at h

theorem last_nonblank_bounds : ∀ (l : List Char) (i j : Nat),
    last_nonblank l i = some j → i ≤ j ∧ j < i + l.length := by
  intro l
  induction l with
  | nil => intro i j h; simp [last_nonblank] at h
  | cons c rest ih =>
    intro i j h
    have hunf : last_nonblank (c :: rest) i =
        match last_nonblank rest (i + 1) with
        | some k => some k
        | none => if c ≠ '_' then some i else none := rfl
    rw [hunf] at h
    rcases hr : last_nonblank rest (i + 1) with _ | k
    · rw [hr] at h
      by_cases hc : c ≠ '_'
      · rw [if_pos hc] at h
        obtain rfl : i = j := by injection h
        simp
      · rw [if_neg hc] at h
        cases h
    · rw [hr] at h
      simp only at h
      obtain rfl : k = j := by injection h
      obtain ⟨h1, h2⟩ := ih (i + 1) k hr
      refine ⟨by omega, ?_⟩
      simp only [List.length_cons]
      omega



theorem save_state_tape (e : TuringEditor) : (save_state e).tape = e.tape := rfl

theorem save_state_head (e : TuringEditor) : (save_state e).head = e.head := rfl

theorem save_state_mode (e : TuringEditor) : (save_state e).mode = e.mode := rfl

theorem save_state_redo (e : TuringEditor) :
    (save_state e).redo_stack = e.redo_stack := rfl

/-- C3 (amended): the head is never negative (it is a `Nat`) and the
movement operations keep `0 ≤ head ≤ N-1`; but `type_text` does not clamp:
on successful completion the head grows by exactly one per symbol typed
(so typing past capacity pushes the head beyond `N-1`), and loading sets
`head = content length` with no clamp. -/
theorem c3_head_unclamped (e : TuringEditor) (text content : List Char)
    (hsucc : (type_text text e).2 = none)
    (hh : e.head ≤ e.tape.length - 1) :
    (type_text text e).1.head = e.head + text.length ∧
    (load_content content e).head = content.length ∧
    (move_left e).head ≤ e.tape.length - 1 ∧
    (move_right e).head ≤ e.tape.length - 1 ∧
    (move_start e).head ≤ e.tape.length - 1 ∧
    (move_end e).head ≤ e.tape.length - 1 := by
  refine ⟨type_text_head e text hsucc, rfl, ?_, ?_, ?_, ?_⟩
  · show (if e.head > 0 then e.head - 1 else e.head) ≤ e.tape.length - 1
    split <;> omega
  · show (if e.head < e.tape.length - 1 then e.head + 1 else e.head) ≤
      e.tape.length - 1
    split <;> omega
  · show 0 ≤ e.tape.length - 1
    omega
  · show _visible_length e - 1 ≤ e.tape.length - 1
    unfold _visible_length
    simp only
    rcases hl : last_nonblank e.tape 0 with _ | k
    · simp only
      omega
    · simp only
      obtain ⟨h1, h2⟩ := last_nonblank_bounds e.tape 0 k hl
      omega

theorem pyInsert_length (l : List Char) (i : Nat) (x : Char) :
    (pyInsert l i x).length = l.length + 1 := by
  unfold pyInsert
  simp [List.length_append, List.length_take, List.length_drop]
  omega

theorem type_loop_tape_length (mode : String) :
    ∀ (text tape : List Char) (head : Nat),
      (type_loop mode text tape head).1.length = tape.length := by
  intro text
  induction text with
  | nil => intro tape head; rfl
  | cons ch rest ih =>
    intro tape head
    by_cases hm : mode = "insert"
    · have hstep : type_loop mode (ch :: rest) tape head
          = type_loop mode rest ((pyInsert tape head ch).dropLast) (head + 1) := by
        simp only [type_loop]; rw [if_pos hm]
      rw [hstep, ih]
      simp [List.length_dropLast, pyInsert_length]
    · by_cases hl : head < tape.length
      · have hstep : type_loop mode (ch :: rest) tape head
            = type_loop mode rest (tape.set head ch) (head + 1) := by
          simp only [type_loop]; rw [if_neg hm, if_pos hl]
        rw [hstep, ih]
        simp [List.length_set]
      · have hstep : type_loop mode (ch :: rest) tape head
            = (tape, head, some EdErr.indexError) := by
          simp only [type_loop]; rw [if_neg hm, if_neg hl]
        rw [hstep]

theorem type_text_tape_length (e : TuringEditor) (text : List Char) :
    (type_text text e).1.tape.length = e.tape.length := by
  by_cases ht : text = []
  · subst ht; simp [type_text]
  · unfold type_text
    rw [if_neg ht]
    simp only
    rcases htl : type_loop (save_state e).mode text (save_state e).tape
        (save_state e).head with ⟨tape, head, err⟩
    have hlen := type_loop_tape_length (save_state e).mode text
        (save_state e).tape (save_state e).head
    rw [htl] at hlen
    cases err <;> simp [htl] <;> exact hlen

theorem write_at_length : ∀ (text tape : List Char) (i : Nat),
    (write_at tape i text).1.length = tape.length := by
  intro text
  induction text with
  | nil => intro tape i; rfl
  | cons ch rest ih =>
    intro tape i
    by_cases hl : i < tape.length
    · have hstep : write_at tape i (ch :: rest)
          = write_at (tape.set i ch) (i + 1) rest := by
        simp only [write_at]; rw [if_pos hl]
      rw [hstep, ih]
      simp [List.length_set]
    · have hstep : write_at tape i (ch :: rest)
          = (tape, some EdErr.indexError) := by
        simp only [write_at]; rw [if_neg hl]
      rw [hstep]

theorem blank_from_length (tape : List Char) (start : Nat) :
    (blank_from tape start).length = tape.length := by
  unfold blank_from
  simp [List.length_append, List.length_take, List.length_replicate]
  omega

/-- C4 (amended): `type_text` (both modes, also on the `IndexError`
path), `backspace`, `clear_all` and `replace_text` (also on the
`IndexError` path) never change the tape's length; but loading content of
length `> N` resizes the tape: the new length is `max N (content length)`
because the blank padding `["_"] * (N - len(content))` is empty and the
tape becomes the bare content. -/
theorem c4_tape_length (e : TuringEditor) (text old new content : List Char) :
    (type_text text e).1.tape.length = e.tape.length ∧
    (backspace e).1.tape.length = e.tape.length ∧
    (clear_all e).tape.length = e.tape.length ∧
    (replace_text old new e).1.tape.length = e.tape.length ∧
    (load_content content e).tape.length = max e.tape.length content.length := by
  refine ⟨type_text_tape_length e text, ?_, ?_, ?_, ?_⟩
  · unfold backspace
    split
    · rfl
    · simp only
      split <;> simp [List.length_set, save_state_tape]
  · show (List.replicate (save_state e).tape.length '_').length = e.tape.length
    simp [List.length_replicate, save_state_tape]
  · unfold replace_text
    simp only
    rcases hw : write_at (save_state e).tape 0
        (py_replace (get_text (save_state e)) old new) with ⟨tape, err⟩
    have hlen := write_at_length (py_replace (get_text (save_state e)) old new)
        (save_state e).tape 0
    rw [hw] at hlen
    cases err <;> simp [hw, blank_from_length, save_state_tape] <;>
      rw [← save_state_tape e] <;> exact hlen
  · show (content ++ List.replicate ((save_state e).tape.length - content.length) '_').length
        = max e.tape.length content.length
    simp [List.length_append, List.length_replicate, save_state_tape]
    omega



theorem type_loop_insert_no_error :
    ∀ (text tape : List Char) (head : Nat),
      (type_loop "insert" text tape head).2.2 = none := by
  intro text
  induction text with
  | nil => intro tape head; rfl
  | cons ch rest ih =>
    intro tape head
    have hstep : type_loop "insert" (ch :: rest) tape head
        = type_loop "insert" rest ((pyInsert tape head ch).dropLast) (head + 1) := by
      simp [type_loop]
    rw [hstep]; exact ih _ _

theorem type_text_insert_no_error (e : TuringEditor) (text : List Char)
    (hmode : e.mode = "insert") :
    (type_text text e).2 = none := by
  by_cases ht : text = []
  · subst ht; simp [type_text]
  · unfold type_text
    rw [if_neg ht]
    simp only
    have hm : (save_state e).mode = "insert" := by rw [save_state_mode, hmode]
    rcases htl : type_loop (save_state e).mode text (save_state e).tape
        (save_state e).head with ⟨tape, head, err⟩
    have hne := type_loop_insert_no_error text (save_state e).tape (save_state e).head
    rw [← hm, htl] at hne
    cases err
    · simp [htl]
    · simp at hne

theorem write_at_no_error_iff : ∀ (text tape : List Char) (i : Nat),
    (write_at tape i text).2 = none ↔
      (text = [] ∨ i + text.length ≤ tape.length) := by
  intro text
  induction text with
  | nil => intro tape i; simp [write_at]
  | cons ch rest ih =>
    intro tape i
    by_cases hl : i < tape.length
    · have hstep : write_at tape i (ch :: rest)
          = write_at (tape.set i ch) (i + 1) rest := by
        simp only [write_at]; rw [if_pos hl]
      rw [hstep, ih]
      simp only [List.length_set, List.length_cons]
      constructor
      · rintro (rfl | h)
        · right; simp; omega
        · right; omega
      · rintro (h | h)
        · exact absurd h (by simp)
        · right; omega
    · have hstep : write_at tape i (ch :: rest)
          = (tape, some EdErr.indexError) := by
        simp only [write_at]; rw [if_neg hl]
      rw [hstep]
      simp [List.length_cons]
      omega

theorem get_text_save_state (e : TuringEditor) :
    get_text (save_state e) = get_text e := rfl

theorem replace_text_error_iff (e : TuringEditor) (old new : List Char) :
    (replace_text old new e).2 = none ↔
      (py_replace (get_text e) old new).length ≤ e.tape.length := by
  unfold replace_text
  simp only
  rcases hw : write_at (save_state e).tape 0
      (py_replace (get_text (save_state e)) old new) with ⟨tape, err⟩
  have hiff := write_at_no_error_iff (py_replace (get_text (save_state e)) old new)
      (save_state e).tape 0
  rw [hw] at hiff
  rw [get_text_save_state, save_state_tape] at hiff
  cases err
  · simp [hw]
    rcases hiff.mp rfl with h | h
    · rw [h]; simp
    · omega
  · simp [hw]
    by_contra hcon
    push_neg at hcon
    have hnone := hiff.mpr (Or.inr (by omega))
    simp at hnone

/-- C5 (amended): `type_text` in insert mode is total (typing past
capacity silently drops symbols off the tape end and never raises), but in
overwrite mode it raises `IndexError` once the head passes `N-1`; and
`replace_text` completes without raising exactly when the replacement
result fits on the tape — when it is longer than `N` it raises
`IndexError` (see the counterexample). -/
theorem c5_totality (e : TuringEditor) (text old new : List Char)
    (hmode : e.mode = "insert") :
    (type_text text e).2 = none ∧
    ((replace_text old new e).2 = none ↔
      (py_replace (get_text e) old new).length ≤ e.tape.length) :=
  ⟨type_text_insert_no_error e text hmode, replace_text_error_iff e old new⟩

theorem backspace_at_zero (e : TuringEditor) (h : e.head = 0) :
    backspace e = (e, some EdErr.nothingToDelete) := by
  unfold backspace; rw [if_pos h]

theorem undo_empty (e : TuringEditor) (h : e.undo_stack = []) :
    undo e = (e, some EdErr.nothingToUndo) := by
  unfold undo; rw [h]; rfl

theorem redo_empty (e : TuringEditor) (h : e.redo_stack = []) :
    redo e = (e, some EdErr.nothingToRedo) := by
  unfold redo; rw [h]; rfl

/-- C7: `backspace` with `head = 0`, `undo` with an empty undo stack and
`redo` with an empty redo stack report `NothingToDelete` /
`NothingToUndo` / `NothingToRedo` respectively and return the engine state
completely unchanged — same tape, head, mode, state label and both stacks,
with no checkpoint taken. -/
theorem c7_error_paths_no_state_change (e : TuringEditor) :
    (e.head = 0 → backspace e = (e, some EdErr.nothingToDelete)) ∧
    (e.undo_stack = [] → undo e = (e, some EdErr.nothingToUndo)) ∧
    (e.redo_stack = [] → redo e = (e, some EdErr.nothingToRedo)) :=
  ⟨backspace_at_zero e, undo_empty e, redo_empty e⟩

theorem type_text_clears_redo (e : TuringEditor) (text : List Char)
    (htext : text ≠ []) (hsucc : (type_text text e).2 = none) :
    (type_text text e).1.redo_stack = [] := by
  unfold type_text at hsucc ⊢
  rw [if_neg htext] at hsucc ⊢
  simp only at hsucc ⊢
  rcases htl : type_loop (save_state e).mode text (save_state e).tape
      (save_state e).head with ⟨tape, head, err⟩
  cases err
  · simp [htl]
  · rw [htl] at hsucc; simp at hsucc

theorem backspace_clears_redo (e : TuringEditor)
    (hsucc : (backspace e).2 = none) :
    (backspace e).1.redo_stack = [] := by
  unfold backspace at hsucc ⊢
  by_cases hz : e.head = 0
  · rw [if_pos hz] at hsucc; simp at hsucc
  · rw [if_neg hz] at hsucc ⊢
    simp only at hsucc ⊢
    by_cases hlt : (save_state e).head - 1 < (save_state e).tape.length
    · rw [if_pos hlt]
    · rw [if_neg hlt] at hsucc; simp at hsucc

/-- C8: after every successful `type_text` with non-empty input and every
successful `backspace`, the redo stack is empty, so an immediately
following `redo` fails with `NothingToRedo` and changes nothing. -/
theorem c8_redo_empty_after_edit (e : TuringEditor) (text : List Char)
    (htext : text ≠ []) (hts : (type_text text e).2 = none)
    (hbs : (backspace e).2 = none) :
    (type_text text e).1.redo_stack = [] ∧
    redo (type_text text e).1
      = ((type_text text e).1, some EdErr.nothingToRedo) ∧
    (backspace e).1.redo_stack = [] ∧
    redo (backspace e).1 = ((backspace e).1, some EdErr.nothingToRedo) := by
  have h1 := type_text_clears_redo e text htext hts
  have h2 := backspace_clears_redo e hbs
  exact ⟨h1, redo_empty _ h1, h2, redo_empty _ h2⟩

/-- C9: `clear_all` and `replace_text` leave the redo stack exactly as it
was (on success and on the `IndexError` path alike): both checkpoint and
mutate the tape but neither clears redo history, preserving the asymmetry
with `type_text`/`backspace`. -/
theorem c9_redo_stack_preserved (e : TuringEditor) (old new : List Char) :
    (clear_all e).redo_stack = e.redo_stack ∧
    (replace_text old new e).1.redo_stack = e.redo_stack := by
  refine ⟨rfl, ?_⟩
  unfold replace_text
  simp only
  rcases hw : write_at (save_state e).tape 0
      (py_replace (get_text (save_state e)) old new) with ⟨tape, err⟩
  cases err <;> rfl



/-- C3 counterexample: on a fresh capacity-1 editor, `type_text "a"`
completes without error yet leaves `head = 1`, strictly greater than
`N - 1 = 0` — the claimed clamp `head ≤ N-1` does not exist in the code. -/
theorem c3_counterexample :
    (type_text ['a'] (init 1)).2 = none ∧
    (init 1).tape.length = 1 ∧
    (init 1).tape.length - 1 < (type_text ['a'] (init 1)).1.head := by
  decide

/-- C4 counterexample: loading two characters into a capacity-1 editor
resizes the tape from length 1 to length 2. -/
theorem c4_counterexample :
    (init 1).tape.length = 1 ∧
    (load_content ['a', 'b'] (init 1)).tape.length = 2 := by
  decide

/-- C5 counterexample: `replace_text` raises `IndexError` when the
replacement result is longer than the tape (here "a" → "abc" on a
capacity-2 tape), and `type_text` in overwrite mode raises `IndexError`
when typing runs past capacity (here "ab" on a capacity-1 tape). -/
theorem c5_counterexample :
    (replace_text ['a'] ['a', 'b', 'c'] (type_text ['a'] (init 2)).1).2
      = some EdErr.indexError ∧
    (type_text ['a', 'b'] (toggle_mode (init 1))).2
      = some EdErr.indexError := by
  decide

set_option maxRecDepth 40000 in
/-- C10: the blank sentinel is the literal underscore, so a typed trailing
underscore is indistinguishable from blank: on a fresh default editor in
insert mode, after `type_text "a_"`, `get_text` returns just "a", silently
dropping the typed trailing underscore. -/
theorem c10_trailing_underscore_dropped :
    (init 300).mode = "insert" ∧
    get_text (type_text ['a', '_'] (init 300)).1 = ['a'] := by
  decide

/-- Witness for C1 at the concrete state `ed0` (tape "ab", head 1). -/
theorem c1_undo_restores_prior_state_witness :
    ((undo (type_text ['c'] ed0).1).2 = none ∧
      triple (undo (type_text ['c'] ed0).1).1 = triple ed0) ∧
    ((undo (backspace ed0).1).2 = none ∧
      triple (undo (backspace ed0).1).1 = triple ed0) ∧
    ((undo (clear_all ed0)).2 = none ∧
      triple (undo (clear_all ed0)).1 = triple ed0) ∧
    ((undo (replace_text ['a'] ['b'] ed0).1).2 = none ∧
      triple (undo (replace_text ['a'] ['b'] ed0).1).1 = triple ed0) :=
  c1_undo_restores_prior_state ed0 ['c'] ['a'] ['b'] (by decide) (by decide)

/-- Witness for C2 after one concrete edit on a fresh editor. -/
theorem c2_undo_redo_identity_witness :
    (undo (clear_all (init 1))).2 = none ∧
    (redo (undo (clear_all (init 1))).1).2 = none ∧
    triple (redo (undo (clear_all (init 1))).1).1
      = triple (clear_all (init 1)) :=
  c2_undo_redo_identity (clear_all (init 1)) (by decide)

/-- Witness for the amended C3 on a fresh capacity-1 editor. -/
theorem c3_head_unclamped_witness :
    (type_text ['a'] (init 1)).1.head = (init 1).head + ['a'].length ∧
    (load_content ['b'] (init 1)).head = ['b'].length ∧
    (move_left (init 1)).head ≤ (init 1).tape.length - 1 ∧
    (move_right (init 1)).head ≤ (init 1).tape.length - 1 ∧
    (move_start (init 1)).head ≤ (init 1).tape.length - 1 ∧
    (move_end (init 1)).head ≤ (init 1).tape.length - 1 :=
  c3_head_unclamped (init 1) ['a'] ['b'] (by decide) (by decide)

/-- Witness for the amended C5 on a fresh capacity-1 editor. -/
theorem c5_totality_witness :
    (type_text ['a'] (init 1)).2 = none ∧
    ((replace_text ['a'] ['b'] (init 1)).2 = none ↔
      (py_replace (get_text (init 1)) ['a'] ['b']).length
        ≤ (init 1).tape.length) :=
  c5_totality (init 1) ['a'] ['a'] ['b'] (by decide)

/-- Witness for the amended C6 on a fresh editor. -/
theorem c6_undo_bound_witness :
    (save_state (init 1)).undo_stack.length ≤ 300 ∧
    ((init 1).undo_stack.length = 300 →
      (save_state (init 1)).undo_stack =
        ((init 1).undo_stack
          ++ [((init 1).tape, (init 1).head, (init 1).mode)]).tail) ∧
    ((init 1).redo_stack ≠ [] →
      (redo (init 1)).1.undo_stack.length
        = (init 1).undo_stack.length + 1) :=
  c6_undo_bound (init 1) (by decide)

/-- Witness for C7 on a fresh editor (head 0, both stacks empty). -/
theorem c7_error_paths_no_state_change_witness :
    backspace (init 1) = (init 1, some EdErr.nothingToDelete) ∧
    undo (init 1) = (init 1, some EdErr.nothingToUndo) ∧
    redo (init 1) = (init 1, some EdErr.nothingToRedo) := by
  obtain ⟨h1, h2, h3⟩ := c7_error_paths_no_state_change (init 1)
  exact ⟨h1 rfl, h2 rfl, h3 rfl⟩

/-- Witness for C8 at the concrete state `ed0` (tape "ab", head 1). -/
theorem c8_redo_empty_after_edit_witness :
    (type_text ['c'] ed0).1.redo_stack = [] ∧
    redo (type_text ['c'] ed0).1
      = ((type_text ['c'] ed0).1, some EdErr.nothingToRedo) ∧
    (backspace ed0).1.redo_stack = [] ∧
    redo (backspace ed0).1 = ((backspace ed0).1, some EdErr.nothingToRedo) :=
  c8_redo_empty_after_edit ed0 ['c'] (by decide) (by decide) (by decide)

end TuringEditor
